import Mathlib

set_option maxHeartbeats 1000000

/-!
Shallow embedding of the `dnsresolver` package of komari-agent
(`src/dnsresolver/resolver.go`; the current version of the file, with the
IPv6-aware fallback list and `normalizeDNSServer`).

Modelling conventions:
* Go strings are Lean `String`s; the Go `strings` helpers used by the code
  (`TrimSpace`, `Contains`, `HasPrefix`, `Count` with a one-character
  separator) are modelled character-wise below.
* Network effects are abstracted by their outcome: a dial oracle
  `dialOk : String → Bool` records, for each endpoint address, whether a
  dial attempt against it succeeds; `net.ParseIP`/`To4` are abstracted by a
  classification function `classify : String → IPClass` (`.bad` means
  `ParseIP` returns nil, `.v4` means `To4() != nil`, `.v6` means the string
  parses but `To4() == nil`).
* `time.Duration` values are integers counting nanoseconds, as in Go.
* Every dial loop returns, besides its result, the list of endpoint
  addresses it attempted, in order, so ordering/exhaustion claims can be
  stated.
-/

/-- Code points with the Unicode White_Space property, exactly the set Go's
`unicode.IsSpace` accepts (and hence what `strings.TrimSpace` trims). -/
def goIsSpace (c : Char) : Bool :=
  (decide (9 ≤ c.toNat) && decide (c.toNat ≤ 13)) || c.toNat == 32 ||
  c.toNat == 0x85 || c.toNat == 0xA0 || c.toNat == 0x1680 ||
  (decide (0x2000 ≤ c.toNat) && decide (c.toNat ≤ 0x200A)) ||
  c.toNat == 0x2028 || c.toNat == 0x2029 || c.toNat == 0x202F ||
  c.toNat == 0x205F || c.toNat == 0x3000

/-- Go `strings.TrimSpace` on a character list: drop leading and trailing
white space. -/
def trimSpaceL (l : List Char) : List Char :=
  ((l.dropWhile goIsSpace).reverse.dropWhile goIsSpace).reverse

/-- Go `strings.TrimSpace`. -/
def goTrimSpace (s : String) : String := String.mk (trimSpaceL s.data)

/-- Substring containment on character lists (Go `strings.Contains`). -/
def containsSub (pat : List Char) : List Char → Bool
  | [] => pat.isEmpty
  | c :: rest => pat.isPrefixOf (c :: rest) || containsSub pat rest

/-- Go `strings.Contains s pat`. -/
def goContains (s pat : String) : Bool := containsSub pat.data s.data

/-- Go `strings.HasPrefix s pre`. -/
def goStartsWith (s pre : String) : Bool := pre.data.isPrefixOf s.data

/-- Go `strings.Count s ":"` (the separator is a single character, so this
is the number of colon characters in `s`). -/
def goCountColon (s : String) : Nat := s.data.count ':'

/-- One second as a Go `time.Duration` (nanoseconds). -/
def goSecond : Int := 1000000000

/-- The built-in fallback nameserver list `DNSServers`, in its fixed
priority order (IPv6 resolvers first, then IPv4), from `resolver.go`. -/
def DNSServers : List String :=
  ["[2606:4700:4700::1111]:53",
   "[2606:4700:4700::1001]:53",
   "[2001:4860:4860::8888]:53",
   "[2001:4860:4860::8844]:53",
   "114.114.114.114:53",
   "1.1.1.1:53",
   "8.8.8.8:53",
   "8.8.4.4:53",
   "223.5.5.5:53",
   "119.29.29.29:53"]

/-- `normalizeDNSServer` from `resolver.go`: trim white space, then
(1) return the trimmed string if it is already `[...]...]:...` bracketed
with a port, or has exactly one colon and no `]`;
(2) wrap in brackets and append `:53` if it has at least two colons and no
`]` (a bare IPv6 literal);
(3) append `:53` if it has no colon at all;
(4) otherwise return the trimmed string. -/
def normalizeDNSServer (s0 : String) : String :=
  let s := goTrimSpace s0
  if (goStartsWith s "[" && goContains s "]:") ||
     (goCountColon s == 1 && !goContains s "]") then s
  else if decide (2 ≤ goCountColon s) && !goContains s "]" then
    "[" ++ s ++ "]:53"
  else if !goContains s ":" then s ++ ":53"
  else s

/-- The normalization rules of the amended claim, stated for an input that
has already been trimmed: unchanged if bracketed-with-port or exactly one
colon and no closing bracket; bracket-wrapped with default port `:53` for a
bare IPv6 literal (two or more colons, no closing bracket); `:53` appended
when there is no colon; otherwise unchanged. -/
def claimNormalizeRules (s : String) : String :=
  if (goStartsWith s "[" && goContains s "]:") ||
     (goCountColon s == 1 && !goContains s "]") then s
  else if decide (2 ≤ goCountColon s) && !goContains s "]" then
    "[" ++ s ++ "]:53"
  else if !goContains s ":" then s ++ ":53"
  else s

/-- `SetCustomDNSServer` from `resolver.go`, as a state transformer on the
process-wide `CustomDNSServer` string: an empty input returns immediately
(leaving the state unchanged); otherwise the normalized input is stored. -/
def setCustomDNSServer (customDNS input : String) : String :=
  if input = "" then customDNS
  else normalizeDNSServer input

/-- `getCurrentDNSServer` from `resolver.go`: the configured custom server,
or the empty string meaning "use the system default resolver". -/
def getCurrentDNSServer (customDNS : String) : String :=
  if customDNS ≠ "" then customDNS else ""

/-- The per-attempt timeout of the nameserver-transport dialer in
`GetCustomResolver` (`net.Dialer{Timeout: 10 * time.Second}`). -/
def resolverDialerTimeout : Int := 10 * goSecond

/-- The fallback loop of the custom resolver's `Dial` closure: walk
`DNSServers` in order, skip every entry equal to the override `dnsServer`,
return the first entry whose UDP dial succeeds; error out when the list is
exhausted.  The first component records the endpoints actually dialed. -/
def fallbackLoop (dialOk : String → Bool) (dnsServer : String) :
    List String → List String × Except String String
  | [] => ([], Except.error "no available DNS server")
  | s :: rest =>
    if s = dnsServer then fallbackLoop dialOk dnsServer rest
    else if dialOk s then ([s], Except.ok s)
    else ((s :: (fallbackLoop dialOk dnsServer rest).1),
          (fallbackLoop dialOk dnsServer rest).2)

/-- The body of the `Dial` closure built by `GetCustomResolver` when a
custom DNS server is configured: dial the override first and return it on
success, otherwise run the fallback loop.  The first component records the
endpoints dialed, in order. -/
def resolverDial (dialOk : String → Bool) (customDNS : String) :
    List String × Except String String :=
  let dnsServer := getCurrentDNSServer customDNS
  if dnsServer ≠ "" then
    if dialOk dnsServer then ([dnsServer], Except.ok dnsServer)
    else (dnsServer :: (fallbackLoop dialOk dnsServer DNSServers).1,
          (fallbackLoop dialOk dnsServer DNSServers).2)
  else ((fallbackLoop dialOk dnsServer DNSServers).1,
        (fallbackLoop dialOk dnsServer DNSServers).2)

/-- The resolver capability returned by `GetCustomResolver`: either the
platform default resolver (`net.DefaultResolver`) or a custom resolver
wrapping the configured server. -/
inductive ResolverCapability where
  | systemDefault
  | custom (server : String)
deriving DecidableEq

/-- `GetCustomResolver` from `resolver.go`: the system default resolver when
no custom DNS server is configured, else the custom capability. -/
def GetCustomResolver (customDNS : String) : ResolverCapability :=
  if getCurrentDNSServer customDNS = "" then ResolverCapability.systemDefault
  else ResolverCapability.custom customDNS

/-- The nameserver endpoints a capability dials for one lookup, given the
dial oracle: the system default capability has no custom `Dial` function,
so it never dials any endpoint of the embedded strategy. -/
def capabilityDialAttempts (dialOk : String → Bool) :
    ResolverCapability → List String
  | ResolverCapability.systemDefault => []
  | ResolverCapability.custom s => (resolverDial dialOk s).1

/-- Go `net.JoinHostPort`: bracket the host when it contains a colon. -/
def joinHostPort (host port : String) : String :=
  if goContains host ":" then "[" ++ host ++ "]:" ++ port
  else host ++ ":" ++ port

/-- Timeout of the fresh per-candidate dialer in the HTTP client's
`DialContext` (`net.Dialer{Timeout: 30 * time.Second, ...}`). -/
def httpDialerTimeout : Int := 30 * goSecond

/-- Keep-alive of the fresh per-candidate dialer in both connect loops
(`KeepAlive: 30 * time.Second`). -/
def dialerKeepAlive : Int := 30 * goSecond

/-- The sequential connect loop shared by the HTTP client's `DialContext`
and by `GetDialContext`: for each resolved IP, in order, a fresh dialer
attempts `net.JoinHostPort ip port`; the first success is returned and no
further candidate is tried; if the list is exhausted the aggregate error is
returned.  The first component records the addresses attempted, in order. -/
def connectLoop (dialOk : String → Bool) (network port : String) :
    List String → List String × Except String String
  | [] => ([], Except.error "failed to dial to any of the resolved IPs")
  | ip :: rest =>
    if dialOk (joinHostPort ip port) then
      ([joinHostPort ip port], Except.ok (joinHostPort ip port))
    else (joinHostPort ip port :: (connectLoop dialOk network port rest).1,
          (connectLoop dialOk network port rest).2)

/-- Classification of a candidate string under `net.ParseIP`/`To4`:
`bad` = `ParseIP` returns nil, `v4` = `To4() != nil`, `v6` = parses but
`To4() == nil`. -/
inductive IPClass where
  | v4
  | v6
  | bad
deriving DecidableEq

/-- The comparator passed to `sort.SliceStable` in both `GetHTTPClient` and
`GetDialContext`: false when either side fails to parse; otherwise IPv4
before IPv6 when `preferIPv4` holds, and the reverse when it does not. -/
def ipLess (preferIPv4 : Bool) (classify : String → IPClass)
    (a b : String) : Bool :=
  if classify a = IPClass.bad ∨ classify b = IPClass.bad then false
  else if preferIPv4 then
    decide (classify a = IPClass.v4) && decide (classify b ≠ IPClass.v4)
  else
    decide (classify a ≠ IPClass.v4) && decide (classify b = IPClass.v4)

/-- One step of Go's insertion sort (`sort.SliceStable` runs insertion sort
on slices of fewer than 20 elements): the new element is placed at the right
end and swaps left past each neighbour `y` exactly while `less x y`.  The
accumulator is kept in reversed order (head = rightmost element). -/
def insertFromRight {α : Type} (less : α → α → Bool) (x : α) :
    List α → List α
  | [] => [x]
  | y :: ys => if less x y then y :: insertFromRight less x ys
               else x :: y :: ys

/-- `sort.SliceStable` modelled as Go's adjacent-swap insertion sort (its
exact algorithm for fewer than 20 elements, and a stable sort realizing its
contract in general). -/
def sliceStable {α : Type} (less : α → α → Bool) (l : List α) : List α :=
  (l.foldl (fun acc x => insertFromRight less x acc) []).reverse

/-- The candidate-ordering step of both dial paths: stable-sort the resolved
addresses with `ipLess`. -/
def orderIPs (preferIPv4 : Bool) (classify : String → IPClass)
    (ips : List String) : List String :=
  sliceStable (ipLess preferIPv4 classify) ips

/-- The HTTP client transport's `DialContext` after a successful lookup:
order the candidates, then run the sequential connect loop. -/
def httpTransportDial (preferIPv4 : Bool) (classify : String → IPClass)
    (dialOk : String → Bool) (network port : String) (ips : List String) :
    List String × Except String String :=
  connectLoop dialOk network port (orderIPs preferIPv4 classify ips)

/-- The dial function returned by `GetDialContext` after a successful
lookup: order the candidates, then run the sequential connect loop. -/
def dialContextConnect (preferIPv4 : Bool) (classify : String → IPClass)
    (dialOk : String → Bool) (network port : String) (ips : List String) :
    List String × Except String String :=
  connectLoop dialOk network port (orderIPs preferIPv4 classify ips)

/-- A concrete classifier recording how `net.ParseIP`/`To4` treat three
sample strings: "1.2.3.4" parses as an IPv4 address, "2001:db8::1" parses
as an IPv6 address (`To4` = nil), and "nonsense" does not parse
(`ParseIP` returns nil). -/
def sampleClassify (s : String) : IPClass :=
  if s = "1.2.3.4" then IPClass.v4
  else if s = "2001:db8::1" then IPClass.v6
  else IPClass.bad

/-- A local IP address as the preference scan sees it: whether it is a
loopback address and whether `To4() != nil`. -/
structure GoIP where
  isLoopback : Bool
  isIPv4 : Bool

/-- An interface address as returned by `iface.Addrs()`: the scan's type
switch recognises `*net.IPNet` and `*net.IPAddr` (whose `IP` field may be
nil) and ignores anything else. -/
inductive IfaceAddr where
  | ipNet (ip : Option GoIP)
  | ipAddr (ip : Option GoIP)
  | other

/-- The type switch in `preferIPv4First`: extract the IP of an interface
address, if any. -/
def addrIP : IfaceAddr → Option GoIP
  | IfaceAddr.ipNet ip => ip
  | IfaceAddr.ipAddr ip => ip
  | IfaceAddr.other => none

/-- A network interface as the scan sees it: its Up and Loopback flag bits
and its addresses. -/
structure NetInterface where
  up : Bool
  loopback : Bool
  addrs : List IfaceAddr

/-- The inner loop of `preferIPv4First` over one interface's addresses:
skip nil and loopback IPs; stop with true at the first IPv4 address. -/
def ifaceScanAddrs : List IfaceAddr → Bool
  | [] => false
  | a :: rest =>
    match addrIP a with
    | none => ifaceScanAddrs rest
    | some ip =>
      if ip.isLoopback then ifaceScanAddrs rest
      else if ip.isIPv4 then true
      else ifaceScanAddrs rest

/-- The outer loop of `preferIPv4First`: skip interfaces that are down or
loopback; stop with true at the first interface whose addresses contain an
IPv4 address; false when the interface list is exhausted. -/
def scanHasIPv4 : List NetInterface → Bool
  | [] => false
  | i :: rest =>
    if !i.up || i.loopback then scanHasIPv4 rest
    else if ifaceScanAddrs i.addrs then true
    else scanHasIPv4 rest

/-- One call of `preferIPv4First` under the `sync.Once` guard: the cached
value (an `Option Bool`, `none` before the first call) is computed from the
interface scan on first use and returned unchanged afterwards. -/
def preferIPv4FirstCall (ifaces : List NetInterface) :
    Option Bool → Bool × Option Bool
  | none => (scanHasIPv4 ifaces, some (scanHasIPv4 ifaces))
  | some v => (v, some v)

/-- The effective timeout of `GetDialContext`: a non-positive argument is
replaced by the 15-second default. -/
def dialContextTimeout (t : Int) : Int :=
  if t ≤ 0 then 15 * goSecond else t

/-- The timeout wiring inside the dial function returned by
`GetDialContext`: the deadline derived for the lookup sub-context, the
`Timeout` given to each fresh per-candidate dialer, and its `KeepAlive`. -/
structure DialTimeoutPlan where
  lookupTimeout : Int
  perAttemptTimeout : Int
  keepAlive : Int
deriving DecidableEq

/-- The timeout plan `GetDialContext` wires up for a requested timeout `t`:
`context.WithTimeout(ctx, timeout)` bounds the lookup, and each candidate's
fresh dialer gets `Timeout: timeout` again, with a 30-second keep-alive. -/
def dialContextPlan (t : Int) : DialTimeoutPlan :=
  { lookupTimeout := dialContextTimeout t
    perAttemptTimeout := dialContextTimeout t
    keepAlive := 30 * goSecond }

/-- Total wall-clock budget of the connect phase in the `GetDialContext`
path: every candidate gets the full per-attempt timeout. -/
def connectPhaseBudget (t : Int) (numCandidates : Nat) : Int :=
  numCandidates * (dialContextPlan t).perAttemptTimeout

/-! Helper lemmas. -/

theorem goTrimSpace_of_all_space (s : String)
    (h : ∀ c ∈ s.data, goIsSpace c = true) : goTrimSpace s = "" := by
  unfold goTrimSpace trimSpaceL
  have h1 : s.data.dropWhile goIsSpace = [] := by
    rw [List.dropWhile_eq_nil_iff]
    intro x hx
    exact h x hx
  rw [h1]
  rfl

theorem normalizeDNSServer_eq_rules (s : String) :
    normalizeDNSServer s = claimNormalizeRules (goTrimSpace s) := rfl

/-! Claim theorems. -/

/-- Claim C2 (amended): `normalizeDNSServer` first trims white space and
then applies the claimed rules to the trimmed string, returning the trimmed
string (not the original) in the "unchanged" cases; the four example
normalizations hold, and a trimmed input with exactly one colon and no `]`
is returned as-is. -/
theorem claim_C2_normalize_rules :
    (∀ s : String, normalizeDNSServer s = claimNormalizeRules (goTrimSpace s)) ∧
    normalizeDNSServer "2001:db8::1" = "[2001:db8::1]:53" ∧
    normalizeDNSServer "8.8.8.8" = "8.8.8.8:53" ∧
    normalizeDNSServer "8.8.8.8:5300" = "8.8.8.8:5300" ∧
    normalizeDNSServer "[2001:db8::1]:5300" = "[2001:db8::1]:5300" ∧
    (∀ s : String, goTrimSpace s = s → goCountColon s = 1 →
      goContains s "]" = false → normalizeDNSServer s = s) := by
  refine ⟨fun s => rfl, by decide, by decide, by decide, by decide, ?_⟩
  intro s hts hc hb
  rw [normalizeDNSServer_eq_rules, hts]
  unfold claimNormalizeRules
  rw [hc, hb]
  simp

/-- Claim C2 counterexample: the input `" 8.8.8.8:5300"` is of simple
host:port form (exactly one colon, no brackets), yet `normalizeDNSServer`
does not return it unchanged — it returns the trimmed string. -/
theorem claim_C2_counterexample :
    goCountColon " 8.8.8.8:5300" = 1 ∧
    goContains " 8.8.8.8:5300" "]" = false ∧
    goContains " 8.8.8.8:5300" "[" = false ∧
    normalizeDNSServer " 8.8.8.8:5300" = "8.8.8.8:5300" ∧
    normalizeDNSServer " 8.8.8.8:5300" ≠ " 8.8.8.8:5300" := by
  decide

/-- Witness for claim C2: the one-colon rule applied at a concrete input. -/
theorem claim_C2_witness : normalizeDNSServer "a:1" = "a:1" :=
  claim_C2_normalize_rules.2.2.2.2.2 "a:1" (by decide) (by decide) (by decide)

/-- Claim C3: with `CustomDNSServer` empty, `GetCustomResolver` returns
exactly the platform default resolver, whose capability dials no nameserver
endpoint of the custom strategy (so no fallback-list entry is ever dialed
through it); and the default is returned only in that case. -/
theorem claim_C3_default_resolver :
    GetCustomResolver "" = ResolverCapability.systemDefault ∧
    (∀ dialOk : String → Bool,
      capabilityDialAttempts dialOk (GetCustomResolver "") = []) ∧
    (∀ c : String,
      GetCustomResolver c = ResolverCapability.systemDefault ↔ c = "") := by
  refine ⟨rfl, fun dialOk => rfl, ?_⟩
  intro c
  constructor
  · intro h
    by_contra hc
    have h1 : getCurrentDNSServer c = c := if_pos hc
    unfold GetCustomResolver at h
    rw [h1, if_neg hc] at h
    exact ResolverCapability.noConfusion h
  · intro h
    subst h
    rfl

/-- Claim C7: in the dial function of `GetDialContext`, the lookup phase is
bounded by a sub-deadline equal to the (possibly defaulted) timeout, each
per-candidate connect attempt is given that entire timeout again, and the
connect phase's total budget is the timeout multiplied by the number of
candidates. -/
theorem claim_C7_timeout_layering :
    (∀ t : Int, (dialContextPlan t).lookupTimeout = dialContextTimeout t ∧
      (dialContextPlan t).perAttemptTimeout = dialContextTimeout t ∧
      (dialContextPlan t).perAttemptTimeout = (dialContextPlan t).lookupTimeout ∧
      (∀ n : Nat, connectPhaseBudget t n = (n : Int) * dialContextTimeout t)) ∧
    (∀ t : Int, 0 < t → dialContextTimeout t = t) ∧
    dialContextTimeout 0 = 15 * goSecond := by
  refine ⟨fun t => ⟨rfl, rfl, rfl, fun n => rfl⟩, ?_, by decide⟩
  intro t ht
  unfold dialContextTimeout
  rw [if_neg (by omega)]

/-- Witness for claim C7 at the concrete timeout 7 nanoseconds. -/
theorem claim_C7_witness : (0 : Int) < 7 ∧ dialContextTimeout 7 = 7 :=
  ⟨by decide, claim_C7_timeout_layering.2.1 7 (by decide)⟩

/-- Claim C8: `SetCustomDNSServer` with the empty string leaves the stored
override unchanged, and with any non-empty input stores exactly the
normalized form of that input. -/
theorem claim_C8_set_custom :
    (∀ st : String, setCustomDNSServer st "" = st) ∧
    (∀ st s : String, s ≠ "" → setCustomDNSServer st s = normalizeDNSServer s) := by
  refine ⟨fun st => rfl, fun st s h => ?_⟩
  unfold setCustomDNSServer
  rw [if_neg h]

/-- Witness for claim C8 at concrete inputs. -/
theorem claim_C8_witness :
    setCustomDNSServer "1.1.1.1:53" "8.8.8.8" = "8.8.8.8:53" := by
  rw [claim_C8_set_custom.2 "1.1.1.1:53" "8.8.8.8" (by decide)]
  decide

/-- Claim C9: a non-empty all-whitespace input passes the empty-string
check, trims to the empty string inside normalization, and stores `":53"`
as the override, which switches `GetCustomResolver` to custom mode. -/
theorem claim_C9_whitespace_override :
    ∀ (st s : String), s ≠ "" → (∀ c ∈ s.data, goIsSpace c = true) →
      setCustomDNSServer st s = ":53" ∧
      GetCustomResolver (setCustomDNSServer st s) =
        ResolverCapability.custom ":53" := by
  intro st s hne hsp
  have hset : setCustomDNSServer st s = normalizeDNSServer s := by
    unfold setCustomDNSServer
    rw [if_neg hne]
  have hnorm : normalizeDNSServer s = ":53" := by
    rw [normalizeDNSServer_eq_rules, goTrimSpace_of_all_space s hsp]
    decide
  refine ⟨hset.trans hnorm, ?_⟩
  rw [hset, hnorm]
  decide

/-- Witness for claim C9 at the single-space input. -/
theorem claim_C9_witness :
    setCustomDNSServer "" " " = ":53" :=
  (claim_C9_whitespace_override "" " " (by decide) (by decide)).1

/-- Claim C10: when the lookup succeeds with an empty address list, both the
HTTP-client dial function and the dial-context dial function perform zero
connection attempts and return the aggregate error. -/
theorem claim_C10_empty_candidates :
    ∀ (preferIPv4 : Bool) (classify : String → IPClass)
      (dialOk : String → Bool) (network port : String),
      httpTransportDial preferIPv4 classify dialOk network port [] =
        ([], Except.error "failed to dial to any of the resolved IPs") ∧
      dialContextConnect preferIPv4 classify dialOk network port [] =
        ([], Except.error "failed to dial to any of the resolved IPs") :=
  fun _ _ _ _ _ => ⟨rfl, rfl⟩

theorem fallbackLoop_fst (dialOk : String → Bool) (d : String) (l : List String) :
    (fallbackLoop dialOk d l).1 =
      ((l.filter (fun s => s != d)).takeWhile (fun s => !dialOk s)) ++
        ((l.filter (fun s => s != d)).find? dialOk).toList := by
  induction l with
  | nil => simp [fallbackLoop]
  | cons s rest ih =>
    by_cases hs : s = d
    · simp [fallbackLoop, hs, ih]
    · by_cases hd : dialOk s
      · simp [fallbackLoop, hs, hd, List.filter_cons, List.takeWhile_cons, List.find?_cons]
      · simp [fallbackLoop, hs, hd, ih, List.filter_cons, List.takeWhile_cons, List.find?_cons]

theorem fallbackLoop_snd (dialOk : String → Bool) (d : String) (l : List String) :
    (fallbackLoop dialOk d l).2 =
      ((l.filter (fun s => s != d)).find? dialOk).elim
        (Except.error "no available DNS server") Except.ok := by
  induction l with
  | nil => simp [fallbackLoop]
  | cons s rest ih =>
    by_cases hs : s = d
    · simp [fallbackLoop, hs, ih]
    · by_cases hd : dialOk s
      · simp [fallbackLoop, hs, hd, List.filter_cons, List.find?_cons]
      · simp [fallbackLoop, hs, hd, ih, List.filter_cons, List.find?_cons]

theorem scanSublist (ok : String → Bool) (l : List String) :
    ((l.takeWhile (fun s => !ok s)) ++ ((l.find? ok).toList)).Sublist l := by
  induction l with
  | nil => simp
  | cons x xs ih =>
    by_cases h : ok x
    · simp [List.takeWhile_cons, List.find?_cons, h]
    · simp only [List.takeWhile_cons, List.find?_cons, h]
      simp only [Bool.not_false, if_true, if_false]
      simpa using ih

/-- The built-in fallback list has no duplicate entries. -/
theorem dnsServersNodup : DNSServers.Nodup := by decide

/-- Claim C1: with a non-empty override configured, the resolver's
nameserver-transport dial tries the override first (with the 10-second
per-attempt dialer timeout) and returns it immediately on success; on
failure it walks the built-in fallback list in priority order skipping
every entry equal to the override, returns the first success, never dials
any endpoint twice, and reports the "no available DNS server" error when
the override and every fallback entry fail — for every override value and
every outcome pattern of the individual dial attempts. -/
theorem claim_C1_override_fallback :
    ∀ (dialOk : String → Bool) (custom : String), custom ≠ "" →
      (dialOk custom = true →
        resolverDial dialOk custom = ([custom], Except.ok custom)) ∧
      (dialOk custom = false →
        (resolverDial dialOk custom).1 =
          custom :: (((DNSServers.filter (fun s => s != custom)).takeWhile
              (fun s => !dialOk s)) ++
            ((DNSServers.filter (fun s => s != custom)).find? dialOk).toList) ∧
        (resolverDial dialOk custom).2 =
          ((DNSServers.filter (fun s => s != custom)).find? dialOk).elim
            (Except.error "no available DNS server") Except.ok) ∧
      ((resolverDial dialOk custom).1).Nodup ∧
      (∀ t ∈ ((resolverDial dialOk custom).1).tail, t ≠ custom) ∧
      ((dialOk custom = false ∧ ∀ s ∈ DNSServers, dialOk s = false) →
        (resolverDial dialOk custom).2 =
          Except.error "no available DNS server") ∧
      resolverDialerTimeout = 10 * goSecond := by
  intro dialOk custom h
  have hget : getCurrentDNSServer custom = custom := if_pos h
  have hr : resolverDial dialOk custom =
      (if dialOk custom then ([custom], Except.ok custom)
       else (custom :: (fallbackLoop dialOk custom DNSServers).1,
             (fallbackLoop dialOk custom DNSServers).2)) := by
    unfold resolverDial
    rw [hget, if_pos h]
  have hfilter_sub : ∀ t ∈ DNSServers.filter (fun s => s != custom), t ≠ custom := by
    intro t ht
    have := (List.mem_filter.mp ht).2
    simpa using this
  by_cases hok : dialOk custom
  · refine ⟨?_, ?_, ?_, ?_, ?_, rfl⟩
    · intro _
      rw [hr, if_pos hok]
    · intro hf
      rw [hok] at hf
      cases hf
    · rw [hr, if_pos hok]
      simp
    · rw [hr, if_pos hok]
      simp
    · rintro ⟨h1, _⟩
      rw [hok] at h1
      cases h1
  · have hfb1 := fallbackLoop_fst dialOk custom DNSServers
    have hfb2 := fallbackLoop_snd dialOk custom DNSServers
    have hsub : (fallbackLoop dialOk custom DNSServers).1.Sublist
        (DNSServers.filter (fun s => s != custom)) := by
      rw [hfb1]
      exact scanSublist dialOk (DNSServers.filter (fun s => s != custom))
    have hnodupfb : (fallbackLoop dialOk custom DNSServers).1.Nodup :=
      (dnsServersNodup.filter _).sublist hsub
    have hnotmem : custom ∉ (fallbackLoop dialOk custom DNSServers).1 := by
      intro hmem
      exact hfilter_sub custom (hsub.subset hmem) rfl
    have hokf : dialOk custom = false := by
      cases hv : dialOk custom
      · rfl
      · exact absurd hv hok
    refine ⟨?_, ?_, ?_, ?_, ?_, rfl⟩
    · intro hc
      rw [hc] at hokf
      cases hokf
    · intro _
      rw [hr, if_neg hok]
      exact ⟨by rw [← hfb1], by rw [← hfb2]⟩
    · rw [hr, if_neg hok]
      exact List.nodup_cons.mpr ⟨hnotmem, hnodupfb⟩
    · rw [hr, if_neg hok]
      intro t ht
      exact hfilter_sub t (hsub.subset ht)
    · rintro ⟨_, h2⟩
      rw [hr, if_neg hok]
      have hnone : (DNSServers.filter (fun s => s != custom)).find? dialOk = none := by
        rw [List.find?_eq_none]
        intro x hx
        have hxmem : x ∈ DNSServers := List.mem_of_mem_filter hx
        rw [h2 x hxmem]
        simp
      simp only [hfb2, hnone, Option.elim]

/-- Witness for claim C1: all dials failing against the override
"9.9.9.9:53" yields the exhaustion error. -/
theorem claim_C1_witness :
    (resolverDial (fun _ => false) "9.9.9.9:53").2 =
      Except.error "no available DNS server" :=
  (claim_C1_override_fallback (fun _ => false) "9.9.9.9:53"
    (by decide)).2.2.2.2.1 ⟨rfl, fun s _ => rfl⟩

theorem connectLoop_fst (dialOk : String → Bool) (network port : String)
    (ips : List String) :
    (connectLoop dialOk network port ips).1 =
      ((ips.map (fun ip => joinHostPort ip port)).takeWhile
          (fun a => !dialOk a)) ++
        ((ips.map (fun ip => joinHostPort ip port)).find? dialOk).toList := by
  induction ips with
  | nil => simp [connectLoop]
  | cons ip rest ih =>
    by_cases h : dialOk (joinHostPort ip port)
    · simp [connectLoop, h, List.takeWhile_cons, List.find?_cons]
    · simp [connectLoop, h, ih, List.takeWhile_cons, List.find?_cons]

theorem connectLoop_snd (dialOk : String → Bool) (network port : String)
    (ips : List String) :
    (connectLoop dialOk network port ips).2 =
      ((ips.map (fun ip => joinHostPort ip port)).find? dialOk).elim
        (Except.error "failed to dial to any of the resolved IPs")
        Except.ok := by
  induction ips with
  | nil => simp [connectLoop]
  | cons ip rest ih =>
    by_cases h : dialOk (joinHostPort ip port)
    · simp [connectLoop, h, List.find?_cons]
    · simp [connectLoop, h, ih, List.find?_cons]

/-- Claim C4: the connect step dials each candidate joined with the
original port strictly in list order with a fresh dialer per attempt
(30-second timeout and keep-alive in the HTTP path), returns the first
success attempting nothing further, and when every candidate fails it has
attempted each exactly once, in order, and returns the aggregate
"failed to dial to any of the resolved IPs" error. -/
theorem claim_C4_connect_order :
    ∀ (dialOk : String → Bool) (network port : String) (ips : List String),
      (connectLoop dialOk network port ips).1 =
        ((ips.map (fun ip => joinHostPort ip port)).takeWhile
            (fun a => !dialOk a)) ++
          ((ips.map (fun ip => joinHostPort ip port)).find? dialOk).toList ∧
      (connectLoop dialOk network port ips).2 =
        ((ips.map (fun ip => joinHostPort ip port)).find? dialOk).elim
          (Except.error "failed to dial to any of the resolved IPs")
          Except.ok ∧
      ((∀ ip ∈ ips, dialOk (joinHostPort ip port) = false) →
        (connectLoop dialOk network port ips).1 =
          ips.map (fun ip => joinHostPort ip port) ∧
        (connectLoop dialOk network port ips).2 =
          Except.error "failed to dial to any of the resolved IPs") ∧
      httpDialerTimeout = 30 * goSecond ∧ dialerKeepAlive = 30 * goSecond := by
  intro dialOk network port ips
  refine ⟨connectLoop_fst dialOk network port ips,
    connectLoop_snd dialOk network port ips, ?_, rfl, rfl⟩
  intro hall
  have hnone : ((ips.map (fun ip => joinHostPort ip port)).find? dialOk) = none := by
    rw [List.find?_eq_none]
    intro x hx
    obtain ⟨ip, hip, hj⟩ := List.mem_map.mp hx
    rw [← hj, hall ip hip]
    simp
  constructor
  · rw [connectLoop_fst, hnone]
    simp only [Option.toList_none, List.append_nil]
    rw [List.takeWhile_eq_self_iff]
    intro a ha
    obtain ⟨ip, hip, hj⟩ := List.mem_map.mp ha
    rw [← hj, hall ip hip]
    simp
  · rw [connectLoop_snd, hnone]
    simp [Option.elim]

/-- Witness for claim C4: a two-candidate all-unreachable list is
attempted exactly once each, in order, and yields the aggregate error. -/
theorem claim_C4_witness :
    (connectLoop (fun _ => false) "tcp" "443" ["1.2.3.4", "2001:db8::1"]).1 =
        ["1.2.3.4:443", "[2001:db8::1]:443"] ∧
      (connectLoop (fun _ => false) "tcp" "443" ["1.2.3.4", "2001:db8::1"]).2 =
        Except.error "failed to dial to any of the resolved IPs" := by
  have h := (claim_C4_connect_order (fun _ => false) "tcp" "443"
    ["1.2.3.4", "2001:db8::1"]).2.2.1 (fun ip _ => rfl)
  exact ⟨h.1.trans (by decide), h.2⟩

theorem bool_eq_false_of_not {b : Bool} (h : ¬ b = true) : b = false := by
  cases b
  · rfl
  · exact absurd rfl h

theorem ifaceScanAddrs_eq_true_iff (l : List IfaceAddr) :
    ifaceScanAddrs l = true ↔
      ∃ a ∈ l, ∃ ip, addrIP a = some ip ∧
        ip.isLoopback = false ∧ ip.isIPv4 = true := by
  induction l with
  | nil => simp [ifaceScanAddrs]
  | cons a rest ih =>
    have hstep : ifaceScanAddrs (a :: rest) =
        (match addrIP a with
         | none => ifaceScanAddrs rest
         | some ip =>
           if ip.isLoopback then ifaceScanAddrs rest
           else if ip.isIPv4 then true
           else ifaceScanAddrs rest) := rfl
    have hmem : ∀ (P : IfaceAddr → Prop), (∀ hq : P a, False) →
        ((∃ b ∈ a :: rest, P b) ↔ (∃ b ∈ rest, P b)) := by
      intro P hPa
      constructor
      · rintro ⟨b, hb, hPb⟩
        rcases List.mem_cons.mp hb with hba | hbr
        · exact absurd hPb (by rw [hba]; exact hPa)
        · exact ⟨b, hbr, hPb⟩
      · rintro ⟨b, hb, hPb⟩
        exact ⟨b, List.mem_cons_of_mem a hb, hPb⟩
    cases haddr : addrIP a with
    | none =>
      have hstep2 : ifaceScanAddrs (a :: rest) = ifaceScanAddrs rest := by
        rw [hstep, haddr]
      rw [hstep2, ih]
      exact (hmem _ (by rintro ⟨ip, hip, _⟩; rw [haddr] at hip; cases hip)).symm
    | some ip =>
      have hstep2 : ifaceScanAddrs (a :: rest) =
          (if ip.isLoopback then ifaceScanAddrs rest
           else if ip.isIPv4 then true
           else ifaceScanAddrs rest) := by
        rw [hstep, haddr]
      rw [hstep2]
      by_cases hl : ip.isLoopback = true
      · rw [if_pos hl, ih]
        refine (hmem _ ?_).symm
        rintro ⟨ip', hip', hloop, _⟩
        rw [haddr] at hip'
        cases hip'
        rw [hl] at hloop
        cases hloop
      · have hl' : ip.isLoopback = false := bool_eq_false_of_not hl
        rw [if_neg hl]
        by_cases hv : ip.isIPv4 = true
        · rw [if_pos hv]
          constructor
          · intro _
            exact ⟨a, List.mem_cons_self a rest, ip, haddr, hl', hv⟩
          · intro _
            rfl
        · have hv' : ip.isIPv4 = false := bool_eq_false_of_not hv
          rw [if_neg hv, ih]
          refine (hmem _ ?_).symm
          rintro ⟨ip', hip', _, hv4⟩
          rw [haddr] at hip'
          cases hip'
          rw [hv'] at hv4
          cases hv4

theorem scanHasIPv4_eq_true_iff (ifaces : List NetInterface) :
    scanHasIPv4 ifaces = true ↔
      ∃ i ∈ ifaces, i.up = true ∧ i.loopback = false ∧
        ∃ a ∈ i.addrs, ∃ ip, addrIP a = some ip ∧
          ip.isLoopback = false ∧ ip.isIPv4 = true := by
  induction ifaces with
  | nil => simp [scanHasIPv4]
  | cons i rest ih =>
    have hstep : scanHasIPv4 (i :: rest) =
        (if !i.up || i.loopback then scanHasIPv4 rest
         else if ifaceScanAddrs i.addrs then true
         else scanHasIPv4 rest) := rfl
    rw [hstep]
    have hmem : ∀ (P : NetInterface → Prop), (∀ hq : P i, False) →
        ((∃ j ∈ i :: rest, P j) ↔ (∃ j ∈ rest, P j)) := by
      intro P hPi
      constructor
      · rintro ⟨j, hj, hPj⟩
        rcases List.mem_cons.mp hj with hji | hjr
        · exact absurd hPj (by rw [hji]; exact hPi)
        · exact ⟨j, hjr, hPj⟩
      · rintro ⟨j, hj, hPj⟩
        exact ⟨j, List.mem_cons_of_mem i hj, hPj⟩
    by_cases hskip : (!i.up || i.loopback) = true
    · rw [if_pos hskip, ih]
      refine (hmem _ ?_).symm
      rintro ⟨hup, hlo, _⟩
      rw [hup, hlo] at hskip
      cases hskip
    · have hup : i.up = true := by
        cases hu : i.up
        · rw [hu] at hskip
          exact absurd rfl hskip
        · rfl
      have hlo : i.loopback = false := by
        cases hlb : i.loopback
        · rfl
        · rw [hup, hlb] at hskip
          exact absurd rfl hskip
      rw [if_neg hskip]
      by_cases hscan : ifaceScanAddrs i.addrs = true
      · rw [if_pos hscan]
        constructor
        · intro _
          exact ⟨i, List.mem_cons_self i rest, hup, hlo,
            (ifaceScanAddrs_eq_true_iff i.addrs).mp hscan⟩
        · intro _
          rfl
      · rw [if_neg hscan, ih]
        refine (hmem _ ?_).symm
        rintro ⟨_, _, hex⟩
        exact hscan ((ifaceScanAddrs_eq_true_iff i.addrs).mpr hex)

/-- Claim C5: `preferIPv4First` returns the same boolean on every call
within one process (the scan runs at most once under the once-guard), and
the computed value is true exactly when some up, non-loopback interface
has a non-nil, non-loopback address that is an IPv4 address. -/
theorem claim_C5_prefer_ipv4 :
    ∀ (ifaces : List NetInterface) (cache : Option Bool),
      preferIPv4FirstCall ifaces
          (preferIPv4FirstCall ifaces cache).2 =
        preferIPv4FirstCall ifaces cache ∧
      (preferIPv4FirstCall ifaces none).1 = scanHasIPv4 ifaces ∧
      (scanHasIPv4 ifaces = true ↔
        ∃ i ∈ ifaces, i.up = true ∧ i.loopback = false ∧
          ∃ a ∈ i.addrs, ∃ ip, addrIP a = some ip ∧
            ip.isLoopback = false ∧ ip.isIPv4 = true) := by
  intro ifaces cache
  refine ⟨?_, rfl, scanHasIPv4_eq_true_iff ifaces⟩
  cases cache with
  | none => rfl
  | some v => rfl

theorem insertFromRight_append {α : Type} (less : α → α → Bool) (x : α) :
    ∀ (l₁ l₂ : List α), (∀ y ∈ l₁, less x y = true) →
      (∀ y, l₂.head? = some y → less x y = false) →
      insertFromRight less x (l₁ ++ l₂) = l₁ ++ x :: l₂ := by
  intro l₁
  induction l₁ with
  | nil =>
    intro l₂ _ h₂
    cases l₂ with
    | nil => rfl
    | cons z zs =>
      have hz : less x z = false := h₂ z rfl
      simp only [List.nil_append]
      have hstep : insertFromRight less x (z :: zs) =
          (if less x z then z :: insertFromRight less x zs
           else x :: z :: zs) := rfl
      rw [hstep, if_neg (by rw [hz]; exact Bool.false_ne_true)]
  | cons y ys ih =>
    intro l₂ h₁ h₂
    have hy : less x y = true := h₁ y (List.mem_cons_self y ys)
    have hstep : insertFromRight less x (y :: (ys ++ l₂)) =
        (if less x y then y :: insertFromRight less x (ys ++ l₂)
         else x :: y :: (ys ++ l₂)) := rfl
    rw [List.cons_append, hstep, if_pos hy,
      ih l₂ (fun z hz => h₁ z (List.mem_cons_of_mem y hz)) h₂]
    rfl

theorem filter_insertFromRight {α : Type} (less : α → α → Bool) (p : α → Bool)
    (x : α) : ∀ (l : List α),
    (p x = true → ∀ y ∈ l, p y = true → less x y = false) →
    (insertFromRight less x l).filter p =
      if p x then x :: l.filter p else l.filter p := by
  intro l
  induction l with
  | nil =>
    intro _
    by_cases hp : p x = true
    · simp [insertFromRight, List.filter_cons, hp]
    · simp [insertFromRight, List.filter_cons, bool_eq_false_of_not hp]
  | cons y ys ih =>
    intro h
    by_cases hless : less x y = true
    · have hstep : insertFromRight less x (y :: ys) =
          y :: insertFromRight less x ys := by
        have h0 : insertFromRight less x (y :: ys) =
            (if less x y then y :: insertFromRight less x ys
             else x :: y :: ys) := rfl
        rw [h0, if_pos hless]
      have ih' := ih (fun hpx z hz hpz => h hpx z (List.mem_cons_of_mem y hz) hpz)
      rw [hstep]
      by_cases hp : p x = true
      · have hpy : p y = false := by
          cases hy : p y
          · rfl
          · have hc := h hp y (List.mem_cons_self y ys) hy
            rw [hc] at hless
            cases hless
        simp [List.filter_cons, hpy, hp, ih']
      · have hp' : p x = false := bool_eq_false_of_not hp
        simp [List.filter_cons, hp', ih']
    · have hstep : insertFromRight less x (y :: ys) = x :: y :: ys := by
        have h0 : insertFromRight less x (y :: ys) =
            (if less x y then y :: insertFromRight less x ys
             else x :: y :: ys) := rfl
        rw [h0, if_neg hless]
      rw [hstep]
      by_cases hp : p x = true
      · simp [List.filter_cons, hp]
      · simp [List.filter_cons, bool_eq_false_of_not hp]

theorem foldl_insert_filter {α : Type} (less : α → α → Bool) (p : α → Bool)
    (H : ∀ a b, p a = true → p b = true → less a b = false) :
    ∀ (xs acc : List α),
      ((xs.foldl (fun acc x => insertFromRight less x acc) acc).filter p) =
        (xs.filter p).reverse ++ acc.filter p := by
  intro xs
  induction xs with
  | nil =>
    intro acc
    simp
  | cons x xs ih =>
    intro acc
    have hstep : (x :: xs).foldl (fun acc x => insertFromRight less x acc) acc =
        xs.foldl (fun acc x => insertFromRight less x acc)
          (insertFromRight less x acc) := rfl
    rw [hstep, ih]
    rw [filter_insertFromRight less p x acc (fun hpx y _ hpy => H x y hpx hpy)]
    by_cases hp : p x = true
    · simp [List.filter_cons, hp]
    · simp [List.filter_cons, bool_eq_false_of_not hp]

theorem sliceStable_filter {α : Type} (less : α → α → Bool) (p : α → Bool)
    (H : ∀ a b, p a = true → p b = true → less a b = false) (l : List α) :
    (sliceStable less l).filter p = l.filter p := by
  unfold sliceStable
  rw [List.filter_reverse, foldl_insert_filter less p H l []]
  simp

theorem foldl_insert_partition {α : Type} (less : α → α → Bool) (p : α → Bool) :
    ∀ (xs A B : List α),
      (∀ a b, a ∈ xs ++ A ++ B → b ∈ xs ++ A ++ B →
        less a b = (p a && !p b)) →
      (∀ a ∈ A, p a = true) → (∀ b ∈ B, p b = false) →
      xs.foldl (fun acc x => insertFromRight less x acc)
          (B.reverse ++ A.reverse) =
        (B ++ xs.filter (fun a => !p a)).reverse ++
          (A ++ xs.filter p).reverse := by
  intro xs
  induction xs with
  | nil =>
    intro A B _ _ _
    simp
  | cons x xs ih =>
    intro A B H hA hB
    have hxmem : x ∈ (x :: xs) ++ A ++ B := by simp
    by_cases hp : p x = true
    · have hins : insertFromRight less x (B.reverse ++ A.reverse) =
          B.reverse ++ x :: A.reverse := by
        apply insertFromRight_append
        · intro y hy
          have hyB : y ∈ B := List.mem_reverse.mp hy
          rw [H x y hxmem (by simp [hyB]), hp, hB y hyB]
          rfl
        · intro y hy
          have hyA : y ∈ A := List.mem_reverse.mp (List.mem_of_mem_head? hy)
          rw [H x y hxmem (by simp [hyA]), hA y hyA]
          simp
      have hstep : (x :: xs).foldl (fun acc x => insertFromRight less x acc)
          (B.reverse ++ A.reverse) =
          xs.foldl (fun acc x => insertFromRight less x acc)
            (B.reverse ++ (A ++ [x]).reverse) := by
        show xs.foldl _ (insertFromRight less x (B.reverse ++ A.reverse)) = _
        rw [hins]
        simp
      rw [hstep, ih (A ++ [x]) B ?_ ?_ hB]
      · simp [List.filter_cons, hp, List.append_assoc]
      · intro a b ha hb
        apply H a b <;>
          · simp only [List.mem_append, List.mem_cons] at *
            tauto
      · intro a ha
        rcases List.mem_append.mp ha with h | h
        · exact hA a h
        · rw [List.mem_singleton.mp h]
          exact hp
    · have hpf : p x = false := bool_eq_false_of_not hp
      have hins : insertFromRight less x (B.reverse ++ A.reverse) =
          x :: (B.reverse ++ A.reverse) := by
        have happ := insertFromRight_append less x [] (B.reverse ++ A.reverse)
          (by simp) ?_
        · simpa using happ
        · intro y hy
          have hmem := List.mem_of_mem_head? hy
          have hyBA : y ∈ B ∨ y ∈ A := by
            rcases List.mem_append.mp hmem with h | h
            · exact Or.inl (List.mem_reverse.mp h)
            · exact Or.inr (List.mem_reverse.mp h)
          have hybmem : y ∈ (x :: xs) ++ A ++ B := by
            rcases hyBA with h | h <;> simp [h]
          rw [H x y hxmem hybmem, hpf]
          rfl
      have hstep : (x :: xs).foldl (fun acc x => insertFromRight less x acc)
          (B.reverse ++ A.reverse) =
          xs.foldl (fun acc x => insertFromRight less x acc)
            ((B ++ [x]).reverse ++ A.reverse) := by
        show xs.foldl _ (insertFromRight less x (B.reverse ++ A.reverse)) = _
        rw [hins]
        simp
      rw [hstep, ih A (B ++ [x]) ?_ hA ?_]
      · simp [List.filter_cons, hpf, List.append_assoc]
      · intro a b ha hb
        apply H a b <;>
          · simp only [List.mem_append, List.mem_cons] at *
            tauto
      · intro b hb
        rcases List.mem_append.mp hb with h | h
        · exact hB b h
        · rw [List.mem_singleton.mp h]
          exact hpf

theorem sliceStable_partition {α : Type} (less : α → α → Bool) (p : α → Bool)
    (l : List α)
    (H : ∀ a b, a ∈ l → b ∈ l → less a b = (p a && !p b)) :
    sliceStable less l = l.filter p ++ l.filter (fun a => !p a) := by
  unfold sliceStable
  have h := foldl_insert_partition less p l [] [] (by simpa using H)
    (by simp) (by simp)
  simp only [List.reverse_nil, List.append_nil, List.nil_append] at h
  rw [h]
  simp

theorem ipLess_not_bad (prefer : Bool) (classify : String → IPClass)
    (a b : String) (ha : classify a ≠ IPClass.bad)
    (hb : classify b ≠ IPClass.bad) :
    ipLess prefer classify a b =
      (if prefer then
        decide (classify a = IPClass.v4) && decide (classify b ≠ IPClass.v4)
       else
        decide (classify a ≠ IPClass.v4) && decide (classify b = IPClass.v4)) := by
  unfold ipLess
  rw [if_neg (by rintro (h | h) <;> [exact ha h; exact hb h])]

theorem ipLess_same_class (prefer : Bool) (classify : String → IPClass)
    (c : IPClass) (a b : String) (ha : classify a = c) (hb : classify b = c) :
    ipLess prefer classify a b = false := by
  unfold ipLess
  cases c with
  | bad => rw [if_pos (Or.inl ha)]
  | v4 =>
    have hnb : ¬(classify a = IPClass.bad ∨ classify b = IPClass.bad) := by
      rintro (h | h)
      · rw [ha] at h
        cases h
      · rw [hb] at h
        cases h
    rw [if_neg hnb]
    cases prefer <;> simp [ha, hb]
  | v6 =>
    have hnb : ¬(classify a = IPClass.bad ∨ classify b = IPClass.bad) := by
      rintro (h | h)
      · rw [ha] at h
        cases h
      · rw [hb] at h
        cases h
    rw [if_neg hnb]
    cases prefer <;> simp [ha, hb]

/-- Claim C6 (amended): the candidate ordering is the stable insertion sort
under the family comparator; candidates of any one class (IPv4, IPv6, or
unparseable) keep their original relative order; when every candidate
parses, all IPv4 candidates sort before all IPv6 candidates if IPv4 is
preferred and after them otherwise; and the comparator treats malformed
entries as equal to everything.  (The unrestricted "every IPv4 before every
IPv6" ordering fails when a malformed entry separates the families — see
the counterexample.) -/
theorem claim_C6_stable_order :
    (∀ (prefer : Bool) (classify : String → IPClass) (c : IPClass)
        (ips : List String),
      (orderIPs prefer classify ips).filter
          (fun s => decide (classify s = c)) =
        ips.filter (fun s => decide (classify s = c))) ∧
    (∀ (classify : String → IPClass) (ips : List String),
      (∀ s ∈ ips, classify s ≠ IPClass.bad) →
      orderIPs true classify ips =
        ips.filter (fun s => decide (classify s = IPClass.v4)) ++
          ips.filter (fun s => !decide (classify s = IPClass.v4)) ∧
      orderIPs false classify ips =
        ips.filter (fun s => !decide (classify s = IPClass.v4)) ++
          ips.filter (fun s => decide (classify s = IPClass.v4))) ∧
    (∀ (prefer : Bool) (classify : String → IPClass) (a b : String),
      classify a = IPClass.bad ∨ classify b = IPClass.bad →
      ipLess prefer classify a b = false) := by
  refine ⟨?_, ?_, ?_⟩
  · intro prefer classify c ips
    unfold orderIPs
    apply sliceStable_filter
    intro a b ha hb
    exact ipLess_same_class prefer classify c a b
      (of_decide_eq_true ha) (of_decide_eq_true hb)
  · intro classify ips hgood
    constructor
    · unfold orderIPs
      apply sliceStable_partition
      intro a b ha hb
      rw [ipLess_not_bad true classify a b (hgood a ha) (hgood b hb)]
      simp [decide_not]
    · unfold orderIPs
      have H : ∀ a b, a ∈ ips → b ∈ ips →
          ipLess false classify a b =
            ((fun s => !decide (classify s = IPClass.v4)) a &&
              !(fun s => !decide (classify s = IPClass.v4)) b) := by
        intro a b ha hb
        rw [ipLess_not_bad false classify a b (hgood a ha) (hgood b hb)]
        simp [decide_not, Bool.not_not]
      have h := sliceStable_partition (ipLess false classify)
        (fun s => !decide (classify s = IPClass.v4)) ips H
      simpa [Bool.not_not] using h
  · intro prefer classify a b h
    unfold ipLess
    rw [if_pos h]

/-- Claim C6 counterexample: with IPv4 preferred, the candidate list
["2001:db8::1", "nonsense", "1.2.3.4"] — an IPv6 address, an unparseable
entry, an IPv4 address — is left entirely unchanged by the ordering step,
so the IPv4 candidate does NOT sort before the IPv6 candidate. -/
theorem claim_C6_counterexample :
    sampleClassify "1.2.3.4" = IPClass.v4 ∧
    sampleClassify "2001:db8::1" = IPClass.v6 ∧
    sampleClassify "nonsense" = IPClass.bad ∧
    orderIPs true sampleClassify ["2001:db8::1", "nonsense", "1.2.3.4"] =
      ["2001:db8::1", "nonsense", "1.2.3.4"] := by
  decide

/-- Witness for claim C6: on an all-parseable list with IPv4 preferred, the
IPv4 candidate moves in front of the IPv6 candidate. -/
theorem claim_C6_witness :
    orderIPs true sampleClassify ["2001:db8::1", "1.2.3.4"] =
      ["1.2.3.4", "2001:db8::1"] := by
  have h := (claim_C6_stable_order.2.1 sampleClassify
    ["2001:db8::1", "1.2.3.4"] (by decide)).1
  exact h.trans (by decide)
